import Mathlib

/-!
# Lock broker (lock_server.cpp): shallow embedding and verified properties

The broker of `lock_server.cpp` is a sequential loop: it receives one
`[identity][empty][payload]` message, splits the payload with `split_n`,
and runs one of five branches on the `resources` map, sending zero, one or
two addressed replies.  The embedding below follows that code:

* `std::string` is `String`; a `char` of the payload is a `Char`;
* `std::deque<std::string>` is `List String` (front = head of the list);
* `std::unordered_map<std::string, Resource>` is a function
  `String → Option Resource` (`none` = no entry); `resources[k]` is
  `getOrCreate` (inserts a default `Resource` when the key is missing);
* a three-frame send `[id][empty][payload]` is one `Reply`.
-/

namespace LockServer

/-! ## Data model (lock_server.cpp lines 10-14) -/

/-- Record `Resource` of the source: owner identity (empty string = no owner),
queued client identities, stored content. -/
structure Resource where
  owner : String
  queue : List String
  value : String
deriving DecidableEq, Repr

/-- One addressed send of the ROUTER socket: frames `[identity][empty][payload]`. -/
structure Reply where
  identity : String
  payload : String
deriving DecidableEq, Repr

/-- The map `resources` of `main`: `none` means the key has no entry. -/
abbrev Registry := String → Option Resource

/-- The map as `main` creates it (line 40): no entries. -/
def emptyRegistry : Registry := fun _ => none

/-- A value-initialised `Resource`, as `operator[]` inserts for a missing key. -/
def Resource.fresh : Resource := Resource.mk "" [] ""

/-- The `Resource` that `resources[k]` refers to: the entry, or a fresh one. -/
def getRes (resources : Registry) (k : String) : Resource :=
  (resources k).getD Resource.fresh

/-- Store `res` under key `k` (writing through the reference `resources[k]`). -/
def setRes (resources : Registry) (k : String) (res : Resource) : Registry :=
  fun j => if j = k then some res else resources j

/-! ## Codec (lock_server.cpp lines 16-31 and 59-63) -/

/-- The `for (char c : s)` loop of `split_n`, with its three locals
`out`, `cur`, `parts`; the result is `out` after the final `push_back(cur)`. -/
def split_n_loop (delim : Char) (max_parts : Int) :
    List Char → List String → String → Int → List String
  | [], out, cur, _ => out ++ [cur]
  | c :: cs, out, cur, parts =>
    if c = delim ∧ parts < max_parts then
      split_n_loop delim max_parts cs (out ++ [cur]) "" (parts + 1)
    else
      split_n_loop delim max_parts cs out (cur.push c) parts

/-- Function `split_n` of the source. -/
def split_n (s : String) (delim : Char) (max_parts : Int) : List String :=
  split_n_loop delim max_parts s.data [] "" 1

/-- Lines 60-63 of `main`: the fields `op`, `resource`, `data` of a payload. -/
def decode (msg : String) : String × String × String :=
  let parts := split_n msg ' ' 3
  (if parts.length > 0 then parts.getD 0 "" else "",
   if parts.length > 1 then parts.getD 1 "" else "",
   if parts.length > 2 then parts.getD 2 "" else "")

/-! ## Dispatch (lock_server.cpp lines 65-199) -/

/-- The branch chain of the loop body on the decoded fields: the new map and
the replies sent, in sending order. -/
def handle (resources : Registry) (id_str op resource data : String) :
    Registry × List Reply :=
  if op = "LOCK" then
    let res := getRes resources resource
    if res.owner = "" then
      (setRes resources resource (Resource.mk id_str res.queue res.value),
       [Reply.mk id_str "LOCK_GRANTED"])
    else
      (setRes resources resource (Resource.mk res.owner (res.queue ++ [id_str]) res.value),
       [])
  else if op = "WRITE" then
    let res := getRes resources resource
    if res.owner = id_str then
      (setRes resources resource (Resource.mk res.owner res.queue data),
       [Reply.mk id_str "WRITE_OK"])
    else
      (setRes resources resource res, [Reply.mk id_str "WRITE_DENIED"])
  else if op = "READ" then
    let res := getRes resources resource
    if res.owner = id_str then
      (setRes resources resource res, [Reply.mk id_str ("READ_OK " ++ res.value)])
    else
      (setRes resources resource res, [Reply.mk id_str "READ_DENIED"])
  else if op = "UNLOCK" then
    let res := getRes resources resource
    if res.owner = id_str then
      match res.queue with
      | next_id :: rest =>
        (setRes resources resource (Resource.mk next_id rest res.value),
         [Reply.mk id_str "UNLOCKED", Reply.mk next_id "LOCK_GRANTED"])
      | [] =>
        (setRes resources resource (Resource.mk "" res.queue res.value),
         [Reply.mk id_str "UNLOCKED"])
    else
      (setRes resources resource res, [Reply.mk id_str "UNLOCK_DENIED"])
  else
    (resources, [Reply.mk id_str "ERR UnknownOp"])

/-- One iteration of the `while (true)` loop for a received message
`(id_str, msg)`: decode the payload, then dispatch. -/
def step (resources : Registry) (id_str msg : String) : Registry × List Reply :=
  handle resources id_str (decode msg).1 (decode msg).2.1 (decode msg).2.2

/-- The loop over a finite sequence of received messages `(id_str, msg)`:
the final map and, per message, the replies sent while it was processed. -/
def run (resources : Registry) : List (String × String) → Registry × List (List Reply)
  | [] => (resources, [])
  | (id_str, msg) :: rest =>
    let r := step resources id_str msg
    let t := run r.1 rest
    (t.1, r.2 :: t.2)

/-- The decoding of a payload in the words of the wire protocol: `op` is the
text before the first space, `resource` the text between the first and the
second space, `data` everything after the second space, verbatim. -/
def decode_spec (msg : String) : String × String × String :=
  let afterFirst := (msg.data.dropWhile (fun c => !decide (c = ' '))).drop 1
  (String.mk (msg.data.takeWhile (fun c => !decide (c = ' '))),
   String.mk (afterFirst.takeWhile (fun c => !decide (c = ' '))),
   String.mk ((afterFirst.dropWhile (fun c => !decide (c = ' '))).drop 1))

/-- The owner in the sense of the data model (`owner: optional ClientId`):
the stored `owner` string, with the empty string read as "no owner"
(the test `res.owner.empty()` of the LOCK branch). -/
def ownerOf (res : Resource) : Option String :=
  if res.owner = "" then none else some res.owner

/-- A reply as an observable event: the reply together with the resource
field of the request during whose processing it was sent ("sent for r"). -/
structure Event where
  resource : String
  reply : Reply
deriving DecidableEq, Repr

/-- All replies the loop sends for a sequence of received messages, in sending
order, each tagged with the resource field of the request being processed. -/
def trace (resources : Registry) : List (String × String) → List Event
  | [] => []
  | (id_str, msg) :: rest =>
    (step resources id_str msg).2.map (Event.mk (decode msg).2.1) ++
      trace (step resources id_str msg).1 rest

/-- Per-entry invariant behind "no waiter is stranded": an entry stored
without owner has an empty queue, and no queued identity is the empty
string. -/
def NoStranded (res : Resource) : Prop :=
  (res.owner = "" → res.queue = []) ∧ ∀ x ∈ res.queue, x ≠ ""

/-- Well-formed queue of an entry: it does not contain the stored owner and
has no identity twice. -/
def QueueWF (res : Resource) : Prop :=
  res.owner ∉ res.queue ∧ res.queue.Nodup

/-- The request `(id_str, msg)` respects the re-queue rule in state `s`: when
it is a LOCK, the requester neither owns the named resource nor waits in its
queue. -/
def noRequeue (s : Registry) (id_str msg : String) : Prop :=
  (decode msg).1 = "LOCK" →
    ownerOf (getRes s (decode msg).2.1) ≠ some id_str ∧
      id_str ∉ (getRes s (decode msg).2.1).queue

/-- Every request of the sequence respects the re-queue rule in the state in
which the loop processes it. -/
def noRequeueRun (s : Registry) : List (String × String) → Prop
  | [] => True
  | (id_str, msg) :: rest => noRequeue s id_str msg ∧ noRequeueRun (step s id_str msg).1 rest

/-- Number of LOCK requests naming `r` in a sequence of received messages. -/
def lockRequests (reqs : List (String × String)) (r : String) : Nat :=
  reqs.countP (fun q => decide ((decode q.2).1 = "LOCK" ∧ (decode q.2).2.1 = r))

/-- Number of `LOCK_GRANTED` replies sent while processing requests naming `r`. -/
def grantsSent (evs : List Event) (r : String) : Nat :=
  evs.countP (fun e => decide (e.resource = r ∧ e.reply.payload = "LOCK_GRANTED"))

/-! ## Client driver (lock_client.cpp lines 40-126) -/

/-- How a run of the driver ends: `main` returns an exit code, or an exception
leaves `main` uncaught (the process is terminated, no exit code of `main`). -/
inductive Outcome where
  | returned (code : Int)
  | uncaught
deriving DecidableEq, Repr

/-- Function `main` of lock_client.cpp as a function of `argv` (program name
included, `argc = argv.length`) and of what `send_and_wait` yields for the
LOCK, the WRITE or READ, and the UNLOCK call: `some reply`, or `none` when it
throws.  `stoi` stands for `std::stoi` on the sleep argument (`none` when it
throws).  Console output and the sleep are left out. -/
def client_main (stoi : String → Option Int) (argv : List String)
    (lock_reply op_reply unlock_reply : Option String) : Outcome :=
  if argv.length < 3 then Outcome.returned 1
  else
    let op := argv.getD 2 ""
    if op = "WRITE" ∧ argv.length < 4 then Outcome.returned 1
    else if op = "WRITE" ∧ argv.length ≥ 5 ∧ (stoi (argv.getD 4 "")).isNone then
      Outcome.uncaught
    else
      match lock_reply with
      | none => Outcome.returned 1
      | some reply =>
        if reply = "LOCK_GRANTED" then
          if (op = "WRITE" ∨ op = "READ") ∧ op_reply.isNone then Outcome.uncaught
          else
            match unlock_reply with
            | none => Outcome.uncaught
            | some _ => Outcome.returned 0
        else Outcome.returned 1

/-- The argument list passes lines 41-59 of the driver: at least `<resource>`
and an operation, and for WRITE a data argument and, when a sleep argument
is given, one that `std::stoi` parses. -/
def usage_ok (stoi : String → Option Int) (argv : List String) : Prop :=
  3 ≤ argv.length ∧
    (argv.getD 2 "" = "WRITE" →
      4 ≤ argv.length ∧ (5 ≤ argv.length → (stoi (argv.getD 4 "")).isSome))

/-! ## Lemmas on `split_n` -/

theorem push_append_mk (cur : String) (c : Char) (l : List Char) :
    cur.push c ++ String.mk l = cur ++ String.mk (c :: l) := by
  apply String.ext
  simp [String.data_append]

theorem append_mk_nil (cur : String) : cur ++ String.mk [] = cur := by
  apply String.ext
  simp [String.data_append]

theorem empty_append_mk (l : List Char) : "" ++ String.mk l = String.mk l := by
  apply String.ext
  simp [String.data_append]

/-- Once `parts` has reached `max_parts` the loop only appends to `cur`. -/
theorem split_n_loop_full (delim : Char) (max_parts : Int) (l : List Char) :
    ∀ (out : List String) (cur : String) (parts : Int), ¬ parts < max_parts →
      split_n_loop delim max_parts l out cur parts = out ++ [cur ++ String.mk l] := by
  induction l with
  | nil => intro out cur parts _; simp [split_n_loop, append_mk_nil]
  | cons c cs ih =>
    intro out cur parts h
    simp only [split_n_loop, h, and_false, if_false]
    rw [ih out (cur.push c) parts h, push_append_mk]

/-- While `parts < max_parts` the loop cuts at the first delimiter, if any. -/
theorem split_n_loop_cut (delim : Char) (max_parts : Int) (l : List Char) :
    ∀ (out : List String) (cur : String) (parts : Int), parts < max_parts →
      split_n_loop delim max_parts l out cur parts =
        match l.dropWhile (fun c => !decide (c = delim)) with
        | [] => out ++ [cur ++ String.mk l]
        | _ :: rest =>
          split_n_loop delim max_parts rest
            (out ++ [cur ++ String.mk (l.takeWhile (fun c => !decide (c = delim)))]) ""
            (parts + 1) := by
  induction l with
  | nil => intro out cur parts _; simp [split_n_loop, append_mk_nil]
  | cons c cs ih =>
    intro out cur parts h
    by_cases hc : c = delim
    · subst hc
      simp [split_n_loop, h, List.dropWhile, List.takeWhile, append_mk_nil]
    · have hd : (!decide (c = delim)) = true := by simpa using hc
      simp only [split_n_loop, hc, false_and, if_false, List.dropWhile, List.takeWhile, hd]
      rw [ih (out) (cur.push c) parts h]
      cases hdw : cs.dropWhile (fun c => !decide (c = delim)) with
      | nil => simp [push_append_mk]
      | cons x rest => simp [push_append_mk]

theorem takeWhile_eq_self_of_dropWhile_nil (p : Char → Bool) (l : List Char)
    (h : l.dropWhile p = []) : l.takeWhile p = l := by
  have := List.takeWhile_append_dropWhile p l
  rw [h, List.append_nil] at this
  exact this

theorem delim_not_mem_takeWhile (delim : Char) (l : List Char) :
    delim ∉ l.takeWhile (fun c => !decide (c = delim)) := by
  intro h
  have := List.mem_takeWhile_imp h
  simp at this

/-- The parts list of `split_n msg delim 3` in terms of the first two delimiters. -/
theorem split_n_three (s : String) (delim : Char) :
    split_n s delim 3 =
      match s.data.dropWhile (fun c => !decide (c = delim)) with
      | [] => [s]
      | _ :: l1 =>
        match l1.dropWhile (fun c => !decide (c = delim)) with
        | [] => [String.mk (s.data.takeWhile (fun c => !decide (c = delim))), String.mk l1]
        | _ :: l2 =>
          [String.mk (s.data.takeWhile (fun c => !decide (c = delim))),
           String.mk (l1.takeWhile (fun c => !decide (c = delim))), String.mk l2] := by
  unfold split_n
  rw [split_n_loop_cut delim 3 s.data [] "" 1 (by decide)]
  cases h0 : s.data.dropWhile (fun c => !decide (c = delim)) with
  | nil => simp [empty_append_mk]
  | cons x l1 =>
    simp only [List.nil_append, empty_append_mk]
    rw [split_n_loop_cut delim 3 l1 _ "" (1 + 1) (by decide)]
    cases h1 : l1.dropWhile (fun c => !decide (c = delim)) with
    | nil => simp [empty_append_mk]
    | cons y l2 =>
      simp only [empty_append_mk]
      rw [split_n_loop_full delim 3 l2 _ "" (1 + 1 + 1) (by decide)]
      simp [empty_append_mk]

/-- The code's decoding agrees with the protocol wording on every payload. -/
theorem decode_eq_decode_spec (msg : String) : decode msg = decode_spec msg := by
  unfold decode decode_spec
  rw [split_n_three]
  cases h0 : msg.data.dropWhile (fun c => !decide (c = ' ')) with
  | nil =>
    have ht := takeWhile_eq_self_of_dropWhile_nil _ _ h0
    simp [ht]
  | cons x l1 =>
    cases h1 : l1.dropWhile (fun c => !decide (c = ' ')) with
    | nil =>
      have ht := takeWhile_eq_self_of_dropWhile_nil _ _ h1
      simp [ht, h1]
    | cons y l2 => simp [h1]

theorem takeWhile_append_delim (delim : Char) (a l : List Char) (ha : delim ∉ a) :
    (a ++ delim :: l).takeWhile (fun c => !decide (c = delim)) = a := by
  induction a with
  | nil => simp [List.takeWhile]
  | cons x xs ih =>
    have hx : x ≠ delim := fun h => ha (by simp [h])
    have hxs : delim ∉ xs := fun h => ha (by simp [h])
    simp [List.takeWhile, hx, ih hxs]

theorem dropWhile_append_delim (delim : Char) (a l : List Char) (ha : delim ∉ a) :
    (a ++ delim :: l).dropWhile (fun c => !decide (c = delim)) = delim :: l := by
  induction a with
  | nil => simp [List.dropWhile]
  | cons x xs ih =>
    have hx : x ≠ delim := fun h => ha (by simp [h])
    have hxs : delim ∉ xs := fun h => ha (by simp [h])
    simp [List.dropWhile, hx, ih hxs]

theorem takeWhile_no_delim (delim : Char) (a : List Char) (ha : delim ∉ a) :
    a.takeWhile (fun c => !decide (c = delim)) = a := by
  induction a with
  | nil => simp
  | cons x xs ih =>
    have hx : x ≠ delim := fun h => ha (by simp [h])
    have hxs : delim ∉ xs := fun h => ha (by simp [h])
    simp [List.takeWhile, hx, ih hxs]

theorem dropWhile_no_delim (delim : Char) (a : List Char) (ha : delim ∉ a) :
    a.dropWhile (fun c => !decide (c = delim)) = [] := by
  induction a with
  | nil => simp
  | cons x xs ih =>
    have hx : x ≠ delim := fun h => ha (by simp [h])
    have hxs : delim ∉ xs := fun h => ha (by simp [h])
    simp [List.dropWhile, hx, ih hxs]

/-- Decoding `a ++ " " ++ b` with space-free `a` and `b`. -/
theorem decode_two (msg : String) (a b : List Char) (ha : ' ' ∉ a) (hb : ' ' ∉ b)
    (hmsg : msg.data = a ++ ' ' :: b) :
    decode msg = (String.mk a, String.mk b, "") := by
  rw [decode_eq_decode_spec]
  unfold decode_spec
  rw [hmsg, takeWhile_append_delim _ _ _ ha, dropWhile_append_delim _ _ _ ha]
  simp [takeWhile_no_delim _ _ hb, dropWhile_no_delim _ _ hb]

/-- Decoding `a ++ " " ++ b ++ " " ++ d` with space-free `a` and `b`. -/
theorem decode_three (msg : String) (a b d : List Char) (ha : ' ' ∉ a) (hb : ' ' ∉ b)
    (hmsg : msg.data = a ++ ' ' :: (b ++ ' ' :: d)) :
    decode msg = (String.mk a, String.mk b, String.mk d) := by
  rw [decode_eq_decode_spec]
  unfold decode_spec
  rw [hmsg, takeWhile_append_delim _ _ _ ha, dropWhile_append_delim _ _ _ ha]
  simp [takeWhile_append_delim _ _ _ hb, dropWhile_append_delim _ _ _ hb]

/-! ## Lemmas on the map and on `handle` -/

theorem getRes_setRes_same (resources : Registry) (k : String) (res : Resource) :
    getRes (setRes resources k res) k = res := by
  simp [getRes, setRes]

theorem getRes_setRes_other (resources : Registry) (k j : String) (res : Resource)
    (h : j ≠ k) : getRes (setRes resources k res) j = getRes resources j := by
  simp [getRes, setRes, h]

theorem handle_lock_free (resources : Registry) (id_str resource data : String)
    (h : (getRes resources resource).owner = "") :
    handle resources id_str "LOCK" resource data =
      (setRes resources resource
        (Resource.mk id_str (getRes resources resource).queue (getRes resources resource).value),
       [Reply.mk id_str "LOCK_GRANTED"]) := by
  simp [handle, h]

theorem handle_lock_held (resources : Registry) (id_str resource data : String)
    (h : (getRes resources resource).owner ≠ "") :
    handle resources id_str "LOCK" resource data =
      (setRes resources resource
        (Resource.mk (getRes resources resource).owner
          ((getRes resources resource).queue ++ [id_str]) (getRes resources resource).value),
       []) := by
  simp [handle, h]

theorem handle_write_owner (resources : Registry) (id_str resource data : String)
    (h : (getRes resources resource).owner = id_str) :
    handle resources id_str "WRITE" resource data =
      (setRes resources resource
        (Resource.mk (getRes resources resource).owner (getRes resources resource).queue data),
       [Reply.mk id_str "WRITE_OK"]) := by
  simp [handle, h]

theorem handle_write_other (resources : Registry) (id_str resource data : String)
    (h : (getRes resources resource).owner ≠ id_str) :
    handle resources id_str "WRITE" resource data =
      (setRes resources resource (getRes resources resource),
       [Reply.mk id_str "WRITE_DENIED"]) := by
  simp [handle, h]

theorem handle_read_owner (resources : Registry) (id_str resource data : String)
    (h : (getRes resources resource).owner = id_str) :
    handle resources id_str "READ" resource data =
      (setRes resources resource (getRes resources resource),
       [Reply.mk id_str ("READ_OK " ++ (getRes resources resource).value)]) := by
  simp [handle, h]

theorem handle_read_other (resources : Registry) (id_str resource data : String)
    (h : (getRes resources resource).owner ≠ id_str) :
    handle resources id_str "READ" resource data =
      (setRes resources resource (getRes resources resource),
       [Reply.mk id_str "READ_DENIED"]) := by
  simp [handle, h]

theorem handle_unlock_next (resources : Registry) (id_str resource data next_id : String)
    (rest : List String)
    (h : (getRes resources resource).owner = id_str)
    (hq : (getRes resources resource).queue = next_id :: rest) :
    handle resources id_str "UNLOCK" resource data =
      (setRes resources resource (Resource.mk next_id rest (getRes resources resource).value),
       [Reply.mk id_str "UNLOCKED", Reply.mk next_id "LOCK_GRANTED"]) := by
  simp [handle, h, hq]

theorem handle_unlock_last (resources : Registry) (id_str resource data : String)
    (h : (getRes resources resource).owner = id_str)
    (hq : (getRes resources resource).queue = []) :
    handle resources id_str "UNLOCK" resource data =
      (setRes resources resource (Resource.mk "" [] (getRes resources resource).value),
       [Reply.mk id_str "UNLOCKED"]) := by
  simp [handle, h, hq]

theorem handle_unlock_other (resources : Registry) (id_str resource data : String)
    (h : (getRes resources resource).owner ≠ id_str) :
    handle resources id_str "UNLOCK" resource data =
      (setRes resources resource (getRes resources resource),
       [Reply.mk id_str "UNLOCK_DENIED"]) := by
  simp [handle, h]

theorem handle_unknown (resources : Registry) (id_str op resource data : String)
    (h1 : op ≠ "LOCK") (h2 : op ≠ "WRITE") (h3 : op ≠ "READ") (h4 : op ≠ "UNLOCK") :
    handle resources id_str op resource data =
      (resources, [Reply.mk id_str "ERR UnknownOp"]) := by
  simp [handle, h1, h2, h3, h4]

theorem step_eq_handle (resources : Registry) (id_str msg op resource : String)
    (hop : (decode msg).1 = op) (hres : (decode msg).2.1 = resource) :
    step resources id_str msg = handle resources id_str op resource (decode msg).2.2 := by
  unfold step
  rw [hop, hres]

theorem decode_one (msg : String) (h : ' ' ∉ msg.data) : decode msg = (msg, "", "") := by
  rw [decode_eq_decode_spec]
  unfold decode_spec
  simp [takeWhile_no_delim _ _ h, dropWhile_no_delim _ _ h]

/-- Decoding `op ++ " " ++ r` for space-free `op` and `r`. -/
theorem decode_op_res (op r : String) (hop : ' ' ∉ op.data) (hr : ' ' ∉ r.data) :
    decode (op ++ " " ++ r) = (op, r, "") :=
  decode_two _ op.data r.data hop hr (by simp [String.data_append])

/-- Decoding `op ++ " " ++ r ++ " " ++ d` for space-free `op` and `r`. -/
theorem decode_op_res_data (op r d : String) (hop : ' ' ∉ op.data) (hr : ' ' ∉ r.data) :
    decode (op ++ " " ++ r ++ " " ++ d) = (op, r, d) :=
  decode_three _ op.data r.data d.data hop hr (by simp [String.data_append])

theorem decode_read (r : String) (hr : ' ' ∉ r.data) :
    decode ("READ " ++ r) = ("READ", r, "") :=
  decode_op_res "READ" r (by decide) hr

theorem decode_write (r d : String) (hr : ' ' ∉ r.data) :
    decode ("WRITE " ++ r ++ " " ++ d) = ("WRITE", r, d) :=
  decode_op_res_data "WRITE" r d (by decide) hr

/-! ## Codec claim -/

/-- C9 (codec decode). For every payload the fields computed by lines 60-63
with `split_n(msg, ' ', 3)` are the ones the protocol describes: `op` is the
text before the first space, `resource` the text between the first and the
second space, `data` everything after the second space verbatim
(`decode_spec`); `op` and `resource` contain no space.  Spelled out on the
three shapes a payload can have: no space gives `(msg, "", "")`; one space
gives `(a, b, "")`; two or more give `(a, b, d)` with `d` kept verbatim. -/
theorem decode_fields (msg : String) :
    decode msg = decode_spec msg ∧
      ' ' ∉ (decode msg).1.data ∧ ' ' ∉ (decode msg).2.1.data ∧
      (' ' ∉ msg.data → decode msg = (msg, "", "")) ∧
      (∀ a b : List Char, ' ' ∉ a → ' ' ∉ b → msg.data = a ++ ' ' :: b →
        decode msg = (String.mk a, String.mk b, "")) ∧
      (∀ a b d : List Char, ' ' ∉ a → ' ' ∉ b → msg.data = a ++ ' ' :: (b ++ ' ' :: d) →
        decode msg = (String.mk a, String.mk b, String.mk d)) := by
  refine ⟨decode_eq_decode_spec msg, ?_, ?_, decode_one msg, ?_, ?_⟩
  · rw [decode_eq_decode_spec]
    exact delim_not_mem_takeWhile ' ' _
  · rw [decode_eq_decode_spec]
    exact delim_not_mem_takeWhile ' ' _
  · intro a b ha hb hmsg
    exact decode_two msg a b ha hb hmsg
  · intro a b d ha hb hmsg
    exact decode_three msg a b d ha hb hmsg

/-- Witness for C9: the payload `WRITE r hello  world ` (data with inner,
doubled and trailing spaces). -/
theorem decode_fields_witness :
    decode "WRITE r hello  world " = ("WRITE", "r", "hello  world ") :=
  (decode_fields "WRITE r hello  world ").2.2.2.2.2
    ['W', 'R', 'I', 'T', 'E'] ['r'] "hello  world ".data (by decide) (by decide) rfl

/-! ## Single-request claims -/

/-- C3 (deferred grant on release). For every state and every payload that
decodes to `UNLOCK resource`, sent by the client stored as owner of
`resource`, when the queue of `resource` is `next_id :: rest` the broker sends
exactly two replies, `UNLOCKED` to the requester and then `LOCK_GRANTED` to
`next_id`; afterwards the owner is `next_id`, the queue is `rest` and the
value is unchanged. -/
theorem unlock_hands_over (resources : Registry) (id_str msg resource next_id : String)
    (rest : List String)
    (hop : (decode msg).1 = "UNLOCK") (hres : (decode msg).2.1 = resource)
    (howner : (getRes resources resource).owner = id_str)
    (hqueue : (getRes resources resource).queue = next_id :: rest) :
    (step resources id_str msg).2 =
        [Reply.mk id_str "UNLOCKED", Reply.mk next_id "LOCK_GRANTED"] ∧
      getRes (step resources id_str msg).1 resource =
        Resource.mk next_id rest (getRes resources resource).value := by
  rw [step_eq_handle resources id_str msg "UNLOCK" resource hop hres,
    handle_unlock_next resources id_str resource _ next_id rest howner hqueue]
  exact ⟨rfl, getRes_setRes_same _ _ _⟩

/-- Witness for C3: `A` owns `r`, `B` and `C` wait, `A` sends `UNLOCK r`. -/
theorem unlock_hands_over_witness :
    (step (setRes emptyRegistry "r" (Resource.mk "A" ["B", "C"] "v")) "A" "UNLOCK r").2 =
        [Reply.mk "A" "UNLOCKED", Reply.mk "B" "LOCK_GRANTED"] ∧
      getRes (step (setRes emptyRegistry "r" (Resource.mk "A" ["B", "C"] "v")) "A"
          "UNLOCK r").1 "r" =
        Resource.mk "B" ["C"]
          (getRes (setRes emptyRegistry "r" (Resource.mk "A" ["B", "C"] "v")) "r").value :=
  unlock_hands_over (setRes emptyRegistry "r" (Resource.mk "A" ["B", "C"] "v"))
    "A" "UNLOCK r" "r" "B" ["C"] (by decide) (by decide) (by decide) (by decide)

/-- C4 (queued LOCK gets no reply). For every state and every payload that
decodes to `LOCK resource`, from any client, when `resource` has an owner
(its `owner` string is not empty) the broker sends no reply, appends the
requester at the back of the queue, and leaves owner and value unchanged. -/
theorem lock_held_queues (resources : Registry) (id_str msg resource : String)
    (hop : (decode msg).1 = "LOCK") (hres : (decode msg).2.1 = resource)
    (hheld : (getRes resources resource).owner ≠ "") :
    (step resources id_str msg).2 = [] ∧
      getRes (step resources id_str msg).1 resource =
        Resource.mk (getRes resources resource).owner
          ((getRes resources resource).queue ++ [id_str])
          (getRes resources resource).value := by
  rw [step_eq_handle resources id_str msg "LOCK" resource hop hres,
    handle_lock_held resources id_str resource _ hheld]
  exact ⟨rfl, getRes_setRes_same _ _ _⟩

/-- Witness for C4: `A` owns `r`, `B` waits, `C` sends `LOCK r`. -/
theorem lock_held_queues_witness :
    (step (setRes emptyRegistry "r" (Resource.mk "A" ["B"] "v")) "C" "LOCK r").2 = [] ∧
      getRes (step (setRes emptyRegistry "r" (Resource.mk "A" ["B"] "v")) "C" "LOCK r").1 "r" =
        Resource.mk (getRes (setRes emptyRegistry "r" (Resource.mk "A" ["B"] "v")) "r").owner
          ((getRes (setRes emptyRegistry "r" (Resource.mk "A" ["B"] "v")) "r").queue ++ ["C"])
          (getRes (setRes emptyRegistry "r" (Resource.mk "A" ["B"] "v")) "r").value :=
  lock_held_queues (setRes emptyRegistry "r" (Resource.mk "A" ["B"] "v"))
    "C" "LOCK r" "r" (by decide) (by decide) (by decide)

/-- C5 (WRITE/READ round trip at wire level). For every state, every resource
name `r` without a space, every data string `d` and every client `c` stored
as owner of `r`: the payload `"WRITE " ++ r ++ " " ++ d` from `c` is answered
`WRITE_OK`, and a following payload `"READ " ++ r` from `c` is answered
exactly `"READ_OK " ++ d`. -/
theorem write_read_round_trip (resources : Registry) (c r d : String)
    (hr : ' ' ∉ r.data) (howner : (getRes resources r).owner = c) :
    (step resources c ("WRITE " ++ r ++ " " ++ d)).2 = [Reply.mk c "WRITE_OK"] ∧
      (step (step resources c ("WRITE " ++ r ++ " " ++ d)).1 c ("READ " ++ r)).2 =
        [Reply.mk c ("READ_OK " ++ d)] := by
  have hw : step resources c ("WRITE " ++ r ++ " " ++ d) =
      (setRes resources r
        (Resource.mk (getRes resources r).owner (getRes resources r).queue d),
       [Reply.mk c "WRITE_OK"]) := by
    unfold step
    rw [decode_write r d hr]
    exact handle_write_owner resources c r d howner
  rw [hw]
  refine ⟨rfl, ?_⟩
  unfold step
  rw [decode_read r hr]
  rw [handle_read_owner _ c r "" (by rw [getRes_setRes_same]; exact howner)]
  rw [getRes_setRes_same]

/-- Witness for C5: data with leading, inner and trailing spaces. -/
theorem write_read_round_trip_witness :
    (step (setRes emptyRegistry "r" (Resource.mk "A" [] "old")) "A"
        ("WRITE " ++ "r" ++ " " ++ " a  b ")).2 = [Reply.mk "A" "WRITE_OK"] ∧
      (step (step (setRes emptyRegistry "r" (Resource.mk "A" [] "old")) "A"
        ("WRITE " ++ "r" ++ " " ++ " a  b ")).1 "A" ("READ " ++ "r")).2 =
        [Reply.mk "A" ("READ_OK " ++ " a  b ")] :=
  write_read_round_trip (setRes emptyRegistry "r" (Resource.mk "A" [] "old"))
    "A" "r" " a  b " (by decide) (by decide)

/-- C8 (unknown opcode). For every state, client and payload whose first
space-delimited field (the text before the first space) is none of `LOCK`,
`WRITE`, `READ`, `UNLOCK`, the broker sends exactly one reply,
`ERR UnknownOp`, addressed to the requester, and the map is unchanged. -/
theorem unknown_op_reply (resources : Registry) (id_str msg : String)
    (hop : (decode_spec msg).1 ∉ ["LOCK", "WRITE", "READ", "UNLOCK"]) :
    step resources id_str msg = (resources, [Reply.mk id_str "ERR UnknownOp"]) := by
  rw [← decode_eq_decode_spec] at hop
  simp only [List.mem_cons, List.mem_singleton, List.not_mem_nil, or_false, not_or] at hop
  unfold step
  exact handle_unknown resources id_str _ _ _ hop.1 hop.2.1 hop.2.2.1 hop.2.2.2

/-- Witness for C8: a lower-case opcode and the empty payload. -/
theorem unknown_op_reply_witness :
    step emptyRegistry "A" "lock r" = (emptyRegistry, [Reply.mk "A" "ERR UnknownOp"]) ∧
      step emptyRegistry "A" "" = (emptyRegistry, [Reply.mk "A" "ERR UnknownOp"]) :=
  ⟨unknown_op_reply emptyRegistry "A" "lock r" (by decide),
   unknown_op_reply emptyRegistry "A" "" (by decide)⟩

/-- LOCK and UNLOCK never assign `value`: every lookup keeps its value. -/
theorem handle_lock_unlock_value (resources : Registry) (id_str op resource data k : String)
    (hop : op = "LOCK" ∨ op = "UNLOCK") :
    (getRes (handle resources id_str op resource data).1 k).value =
      (getRes resources k).value := by
  by_cases hk : k = resource
  · subst hk
    rcases hop with h | h
    · subst h
      by_cases ho : (getRes resources k).owner = ""
      · rw [handle_lock_free _ _ _ _ ho, getRes_setRes_same]
      · rw [handle_lock_held _ _ _ _ ho, getRes_setRes_same]
    · subst h
      by_cases ho : (getRes resources k).owner = id_str
      · cases hq : (getRes resources k).queue with
        | nil => rw [handle_unlock_last _ _ _ _ ho hq, getRes_setRes_same]
        | cons n rest => rw [handle_unlock_next _ _ _ _ n rest ho hq, getRes_setRes_same]
      · rw [handle_unlock_other _ _ _ _ ho, getRes_setRes_same]
  · rcases hop with h | h
    · subst h
      by_cases ho : (getRes resources resource).owner = ""
      · rw [handle_lock_free _ _ _ _ ho, getRes_setRes_other _ _ _ _ hk]
      · rw [handle_lock_held _ _ _ _ ho, getRes_setRes_other _ _ _ _ hk]
    · subst h
      by_cases ho : (getRes resources resource).owner = id_str
      · cases hq : (getRes resources resource).queue with
        | nil => rw [handle_unlock_last _ _ _ _ ho hq, getRes_setRes_other _ _ _ _ hk]
        | cons n rest =>
          rw [handle_unlock_next _ _ _ _ n rest ho hq, getRes_setRes_other _ _ _ _ hk]
      · rw [handle_unlock_other _ _ _ _ ho, getRes_setRes_other _ _ _ _ hk]

/-- C6 (value persistence across ownership). If `a` is stored as owner of `r`
with an empty queue and sends a payload decoding to `WRITE r d`, then one
decoding to `UNLOCK r`, and `b` then sends payloads decoding to `LOCK r` and
`READ r`, the replies are `WRITE_OK` and `UNLOCKED` to `a`, then
`LOCK_GRANTED` and `"READ_OK " ++ d` to `b`, and `r` has no owner after the
UNLOCK.  Moreover no LOCK or UNLOCK request, in any state, changes the stored
value of any resource. -/
theorem value_persists (resources : Registry) (a b r d mw mu ml mr : String)
    (hw : decode mw = ("WRITE", r, d))
    (hu : (decode mu).1 = "UNLOCK" ∧ (decode mu).2.1 = r)
    (hl : (decode ml).1 = "LOCK" ∧ (decode ml).2.1 = r)
    (hrd : (decode mr).1 = "READ" ∧ (decode mr).2.1 = r)
    (howner : (getRes resources r).owner = a)
    (hqueue : (getRes resources r).queue = []) :
    (run resources [(a, mw), (a, mu), (b, ml), (b, mr)]).2 =
        [[Reply.mk a "WRITE_OK"], [Reply.mk a "UNLOCKED"],
         [Reply.mk b "LOCK_GRANTED"], [Reply.mk b ("READ_OK " ++ d)]] ∧
      ownerOf (getRes (run resources [(a, mw), (a, mu)]).1 r) = none ∧
      ∀ (s : Registry) (c m k : String),
        (decode m).1 = "LOCK" ∨ (decode m).1 = "UNLOCK" →
          (getRes (step s c m).1 k).value = (getRes s k).value := by
  have h1 : step resources a mw =
      (setRes resources r (Resource.mk a [] d), [Reply.mk a "WRITE_OK"]) := by
    unfold step
    rw [hw]
    show handle resources a "WRITE" r d = _
    rw [handle_write_owner resources a r d howner, howner, hqueue]
  have h2 : step (setRes resources r (Resource.mk a [] d)) a mu =
      (setRes (setRes resources r (Resource.mk a [] d)) r (Resource.mk "" [] d),
       [Reply.mk a "UNLOCKED"]) := by
    rw [step_eq_handle _ a mu "UNLOCK" r hu.1 hu.2,
      handle_unlock_last _ a r _ (by rw [getRes_setRes_same]) (by rw [getRes_setRes_same]),
      getRes_setRes_same]
  have h3 : step (setRes (setRes resources r (Resource.mk a [] d)) r (Resource.mk "" [] d))
      b ml =
      (setRes (setRes (setRes resources r (Resource.mk a [] d)) r (Resource.mk "" [] d)) r
        (Resource.mk b [] d), [Reply.mk b "LOCK_GRANTED"]) := by
    rw [step_eq_handle _ b ml "LOCK" r hl.1 hl.2,
      handle_lock_free _ b r _ (by rw [getRes_setRes_same]), getRes_setRes_same]
  have h4 : (step (setRes (setRes (setRes resources r (Resource.mk a [] d)) r
      (Resource.mk "" [] d)) r (Resource.mk b [] d)) b mr).2 =
      [Reply.mk b ("READ_OK " ++ d)] := by
    rw [step_eq_handle _ b mr "READ" r hrd.1 hrd.2,
      handle_read_owner _ b r _ (by rw [getRes_setRes_same]), getRes_setRes_same]
  refine ⟨?_, ?_, ?_⟩
  · simp only [run, h1, h2, h3, h4]
  · simp only [run, h1, h2, getRes_setRes_same]
    rfl
  · intro s c m k hm
    exact handle_lock_unlock_value s c _ _ _ k hm

/-- Witness for C6: `A` writes `hello world` to `r` and unlocks, `B` locks
and reads. -/
theorem value_persists_witness :
    (run (setRes emptyRegistry "r" (Resource.mk "A" [] "old"))
        [("A", "WRITE r hello world"), ("A", "UNLOCK r"),
         ("B", "LOCK r"), ("B", "READ r")]).2 =
      [[Reply.mk "A" "WRITE_OK"], [Reply.mk "A" "UNLOCKED"],
       [Reply.mk "B" "LOCK_GRANTED"], [Reply.mk "B" ("READ_OK " ++ "hello world")]] :=
  (value_persists (setRes emptyRegistry "r" (Resource.mk "A" [] "old"))
    "A" "B" "r" "hello world" "WRITE r hello world" "UNLOCK r" "LOCK r" "READ r"
    (by decide) (by decide) (by decide) (by decide) (by decide) (by decide)).1

theorem run_cons (resources : Registry) (id_str msg : String) (rest : List (String × String)) :
    run resources ((id_str, msg) :: rest) =
      ((run (step resources id_str msg).1 rest).1,
       (step resources id_str msg).2 :: (run (step resources id_str msg).1 rest).2) := rfl

theorem step_unlock_next (resources : Registry) (msg resource c0 w v : String)
    (ws : List String)
    (hop : (decode msg).1 = "UNLOCK") (hres : (decode msg).2.1 = resource)
    (hst : getRes resources resource = Resource.mk c0 (w :: ws) v) :
    step resources c0 msg =
      (setRes resources resource (Resource.mk w ws v),
       [Reply.mk c0 "UNLOCKED", Reply.mk w "LOCK_GRANTED"]) := by
  rw [step_eq_handle resources c0 msg "UNLOCK" resource hop hres,
    handle_unlock_next resources c0 resource _ w ws (by rw [hst]) (by rw [hst]), hst]

theorem step_unlock_last (resources : Registry) (msg resource c0 v : String)
    (hop : (decode msg).1 = "UNLOCK") (hres : (decode msg).2.1 = resource)
    (hst : getRes resources resource = Resource.mk c0 [] v) :
    step resources c0 msg =
      (setRes resources resource (Resource.mk "" [] v), [Reply.mk c0 "UNLOCKED"]) := by
  rw [step_eq_handle resources c0 msg "UNLOCK" resource hop hres,
    handle_unlock_last resources c0 resource _ (by rw [hst]) (by rw [hst]), hst]

/-- The first `k` UNLOCKs of the chain `c0, c1, ...`: replies and state. -/
theorem run_unlock_chain (msg resource v : String)
    (hop : (decode msg).1 = "UNLOCK") (hres : (decode msg).2.1 = resource) :
    ∀ (waiters : List String) (resources : Registry) (c0 : String) (k : Nat),
      k ≤ waiters.length →
      getRes resources resource = Resource.mk c0 waiters v →
      (run resources (((c0 :: waiters).take k).map (fun c => (c, msg)))).2 =
          (((c0 :: waiters).zip waiters).take k).map
            (fun p => [Reply.mk p.1 "UNLOCKED", Reply.mk p.2 "LOCK_GRANTED"]) ∧
        getRes (run resources (((c0 :: waiters).take k).map (fun c => (c, msg)))).1 resource =
          Resource.mk ((c0 :: waiters).getD k "") (waiters.drop k) v := by
  intro waiters
  induction waiters with
  | nil =>
    intro resources c0 k hk hst
    have hk0 : k = 0 := by simpa using hk
    subst hk0
    simpa [run] using hst
  | cons w ws ih =>
    intro resources c0 k hk hst
    cases k with
    | zero => simpa [run] using hst
    | succ j =>
      have hj : j ≤ ws.length := by simpa using hk
      have h1 := step_unlock_next resources msg resource c0 w v ws hop hres hst
      have h2 := ih (setRes resources resource (Resource.mk w ws v)) w j hj
        (getRes_setRes_same _ _ _)
      simp only [List.take_succ_cons, List.map_cons, run, h1, List.zip_cons_cons]
      refine ⟨?_, ?_⟩
      · rw [h2.1]
      · rw [h2.2]
        simp

/-- All `n + 1` UNLOCKs of the chain: the last one frees the resource. -/
theorem run_unlock_all (msg resource v : String)
    (hop : (decode msg).1 = "UNLOCK") (hres : (decode msg).2.1 = resource) :
    ∀ (waiters : List String) (resources : Registry) (c0 : String),
      getRes resources resource = Resource.mk c0 waiters v →
      (run resources ((c0 :: waiters).map (fun c => (c, msg)))).2 =
          ((c0 :: waiters).zip waiters).map
            (fun p => [Reply.mk p.1 "UNLOCKED", Reply.mk p.2 "LOCK_GRANTED"]) ++
          [[Reply.mk ((c0 :: waiters).getLast (List.cons_ne_nil _ _)) "UNLOCKED"]] ∧
        getRes (run resources ((c0 :: waiters).map (fun c => (c, msg)))).1 resource =
          Resource.mk "" [] v := by
  intro waiters
  induction waiters with
  | nil =>
    intro resources c0 hst
    have h1 := step_unlock_last resources msg resource c0 v hop hres hst
    simp [run, h1, getRes_setRes_same]
  | cons w ws ih =>
    intro resources c0 hst
    have h1 := step_unlock_next resources msg resource c0 w v ws hop hres hst
    have h2 := ih (setRes resources resource (Resource.mk w ws v)) w
      (getRes_setRes_same _ _ _)
    rw [List.map_cons, run_cons, h1]
    refine ⟨?_, ?_⟩
    · show _ :: (run _ _).2 = _
      rw [h2.1]
      simp
    · exact h2.2

/-- C2 (FIFO grants). Let `resource` have stored owner `c0` and queue
`waiters = [c1, ..., cn]`, and let `msg` be any payload decoding to
`UNLOCK resource`.  When `c0, c1, ...` send it in turn, then for every
`k ≤ n` the first `k` UNLOCKs are answered, one after the other, by
`UNLOCKED` to `c(i-1)` followed by `LOCK_GRANTED` to `ci` (`i = 1..k`), and
after them the owner is `ck` and the queue is `[c(k+1), ..., cn]`; one
further UNLOCK by `cn` is answered `UNLOCKED` alone and leaves the resource
without owner and with an empty queue.  The value is never changed. -/
theorem fifo_grants (resources : Registry) (msg resource c0 : String)
    (waiters : List String)
    (hop : (decode msg).1 = "UNLOCK") (hres : (decode msg).2.1 = resource)
    (howner : (getRes resources resource).owner = c0)
    (hqueue : (getRes resources resource).queue = waiters) :
    (∀ k, k ≤ waiters.length →
      (run resources (((c0 :: waiters).take k).map (fun c => (c, msg)))).2 =
          (((c0 :: waiters).zip waiters).take k).map
            (fun p => [Reply.mk p.1 "UNLOCKED", Reply.mk p.2 "LOCK_GRANTED"]) ∧
        getRes (run resources (((c0 :: waiters).take k).map (fun c => (c, msg)))).1 resource =
          Resource.mk ((c0 :: waiters).getD k "") (waiters.drop k)
            (getRes resources resource).value) ∧
      (run resources ((c0 :: waiters).map (fun c => (c, msg)))).2 =
          ((c0 :: waiters).zip waiters).map
            (fun p => [Reply.mk p.1 "UNLOCKED", Reply.mk p.2 "LOCK_GRANTED"]) ++
          [[Reply.mk ((c0 :: waiters).getLast (List.cons_ne_nil _ _)) "UNLOCKED"]] ∧
      getRes (run resources ((c0 :: waiters).map (fun c => (c, msg)))).1 resource =
        Resource.mk "" [] (getRes resources resource).value := by
  have hst : getRes resources resource =
      Resource.mk c0 waiters (getRes resources resource).value := by
    rw [← howner, ← hqueue]
  refine ⟨fun k hk => ?_, ?_⟩
  · exact run_unlock_chain msg resource _ hop hres waiters resources c0 k hk hst
  · exact run_unlock_all msg resource _ hop hres waiters resources c0 hst

/-- Witness for C2: `c0` owns `r`, the queue is `[c1, c2, c3]`; the three
hand-overs and the final release. -/
theorem fifo_grants_witness :
    (run (setRes emptyRegistry "r" (Resource.mk "c0" ["c1", "c2", "c3"] "v"))
        (["c0", "c1", "c2", "c3"].map (fun c => (c, "UNLOCK r")))).2 =
      [[Reply.mk "c0" "UNLOCKED", Reply.mk "c1" "LOCK_GRANTED"],
       [Reply.mk "c1" "UNLOCKED", Reply.mk "c2" "LOCK_GRANTED"],
       [Reply.mk "c2" "UNLOCKED", Reply.mk "c3" "LOCK_GRANTED"],
       [Reply.mk "c3" "UNLOCKED"]] :=
  (fifo_grants (setRes emptyRegistry "r" (Resource.mk "c0" ["c1", "c2", "c3"] "v"))
    "UNLOCK r" "r" "c0" ["c1", "c2", "c3"]
    (by decide) (by decide) (by decide) (by decide)).2.1

/-! ## End-to-end scenario -/

theorem getRes_emptyRegistry (k : String) : getRes emptyRegistry k = Resource.fresh := rfl

theorem read_ok_ne_granted (v : String) : "READ_OK " ++ v ≠ "LOCK_GRANTED" := by
  intro h
  have := congrArg String.data h
  simp [String.data_append] at this

/-- The map after a request is the old map, or the old map with the entry of
the resource field rewritten. -/
theorem handle_state_shape (resources : Registry) (id_str op resource data : String) :
    (handle resources id_str op resource data).1 = resources ∨
      ∃ X, (handle resources id_str op resource data).1 = setRes resources resource X := by
  by_cases h1 : op = "LOCK"
  · subst h1
    by_cases ho : (getRes resources resource).owner = ""
    · rw [handle_lock_free _ _ _ _ ho]; exact Or.inr ⟨_, rfl⟩
    · rw [handle_lock_held _ _ _ _ ho]; exact Or.inr ⟨_, rfl⟩
  · by_cases h2 : op = "WRITE"
    · subst h2
      by_cases ho : (getRes resources resource).owner = id_str
      · rw [handle_write_owner _ _ _ _ ho]; exact Or.inr ⟨_, rfl⟩
      · rw [handle_write_other _ _ _ _ ho]; exact Or.inr ⟨_, rfl⟩
    · by_cases h3 : op = "READ"
      · subst h3
        by_cases ho : (getRes resources resource).owner = id_str
        · rw [handle_read_owner _ _ _ _ ho]; exact Or.inr ⟨_, rfl⟩
        · rw [handle_read_other _ _ _ _ ho]; exact Or.inr ⟨_, rfl⟩
      · by_cases h4 : op = "UNLOCK"
        · subst h4
          by_cases ho : (getRes resources resource).owner = id_str
          · cases hq : (getRes resources resource).queue with
            | nil => rw [handle_unlock_last _ _ _ _ ho hq]; exact Or.inr ⟨_, rfl⟩
            | cons n rest =>
              rw [handle_unlock_next _ _ _ _ n rest ho hq]; exact Or.inr ⟨_, rfl⟩
          · rw [handle_unlock_other _ _ _ _ ho]; exact Or.inr ⟨_, rfl⟩
        · rw [handle_unknown _ _ _ _ _ h1 h2 h3 h4]; exact Or.inl rfl

/-- A request leaves the entry of every name other than its resource field
as it is (present or not). -/
theorem handle_entry_other (resources : Registry) (id_str op resource data k : String)
    (hk : k ≠ resource) : (handle resources id_str op resource data).1 k = resources k := by
  rcases handle_state_shape resources id_str op resource data with h | ⟨X, h⟩
  · rw [h]
  · rw [h]; simp [setRes, hk]

/-- A request never removes an entry. -/
theorem handle_entry_kept (resources : Registry) (id_str op resource data k : String)
    (hk : (resources k).isSome = true) :
    ((handle resources id_str op resource data).1 k).isSome = true := by
  rcases handle_state_shape resources id_str op resource data with h | ⟨X, h⟩
  · rw [h]; exact hk
  · rw [h]
    by_cases hkr : k = resource
    · simp [setRes, hkr]
    · simp [setRes, hkr, hk]

theorem run_entry_kept (reqs : List (String × String)) :
    ∀ (resources : Registry) (k : String), (resources k).isSome = true →
      ((run resources reqs).1 k).isSome = true := by
  induction reqs with
  | nil => intro resources k hk; exact hk
  | cons q rest ih =>
    intro resources k hk
    obtain ⟨id_str, msg⟩ := q
    rw [run_cons]
    exact ih _ k (handle_entry_kept resources id_str (decode msg).1 _ _ k hk)

/-- C13 (registry entries are never deleted). For every state and every
request, a resource name that has an entry in the map before the request
has one after it; hence along any sequence of requests the set of names with
an entry only grows. -/
theorem entries_never_deleted (resources : Registry) (k : String)
    (hk : (resources k).isSome = true) :
    (∀ id_str msg, ((step resources id_str msg).1 k).isSome = true) ∧
      ∀ reqs, ((run resources reqs).1 k).isSome = true :=
  ⟨fun id_str msg =>
    handle_entry_kept resources id_str (decode msg).1 (decode msg).2.1 (decode msg).2.2 k hk,
   fun reqs => run_entry_kept reqs resources k hk⟩

/-- Witness for C13: the entry of `r` survives an UNLOCK by its owner and a
later unknown request. -/
theorem entries_never_deleted_witness :
    ((run (setRes emptyRegistry "r" (Resource.mk "A" [] "v"))
        [("A", "UNLOCK r"), ("B", "PING r")]).1 "r").isSome = true :=
  (entries_never_deleted (setRes emptyRegistry "r" (Resource.mk "A" [] "v")) "r"
    (by decide)).2 [("A", "UNLOCK r"), ("B", "PING r")]

/-- C19 (per-resource frame). For every state and every request, every
resource name `k` other than the decoded resource field of the request keeps
its map entry, and so its owner, queue and value are the same after the
request as before. -/
theorem other_resources_untouched (resources : Registry) (id_str msg k : String)
    (hk : k ≠ (decode msg).2.1) :
    (step resources id_str msg).1 k = resources k ∧
      (getRes (step resources id_str msg).1 k).owner = (getRes resources k).owner ∧
      (getRes (step resources id_str msg).1 k).queue = (getRes resources k).queue ∧
      (getRes (step resources id_str msg).1 k).value = (getRes resources k).value := by
  have h : (step resources id_str msg).1 k = resources k :=
    handle_entry_other resources id_str _ _ _ k hk
  have hg : getRes (step resources id_str msg).1 k = getRes resources k := by
    unfold getRes
    rw [h]
  rw [hg]
  exact ⟨h, rfl, rfl, rfl⟩

/-- Witness for C19: `A` owns `r` and `q`; its UNLOCK of `r` hands `r` to `B`
and leaves `q` alone. -/
theorem other_resources_untouched_witness :
    (step (setRes (setRes emptyRegistry "q" (Resource.mk "A" ["C"] "w")) "r"
        (Resource.mk "A" ["B"] "v")) "A" "UNLOCK r").1 "q" =
      some (Resource.mk "A" ["C"] "w") :=
  (other_resources_untouched
    (setRes (setRes emptyRegistry "q" (Resource.mk "A" ["C"] "w")) "r"
      (Resource.mk "A" ["B"] "v")) "A" "UNLOCK r" "q" (by decide)).1

theorem getRes_of_none (resources : Registry) (k : String) (h : resources k = none) :
    getRes resources k = Resource.fresh := by
  simp [getRes, h]

theorem setRes_same (resources : Registry) (k : String) (X : Resource) :
    setRes resources k X k = some X := by
  simp [setRes]

/-- C14, as amended (lazy creation). For every state in which the resource
field of a request has no map entry: a LOCK creates the entry with the
requester as owner, empty queue and empty value; a READ or UNLOCK creates it
with owner absent, empty queue and empty value; a WRITE creates it with owner
absent and empty queue, and with empty value when the requester identity is
not the empty string (the empty identity passes the ownership test of a
fresh entry and stores its data); a request with any other opcode creates
no entry. -/
theorem lazy_creation (resources : Registry) (id_str msg : String)
    (hnone : resources (decode msg).2.1 = none) :
    ((decode msg).1 = "LOCK" →
        (step resources id_str msg).1 (decode msg).2.1 = some (Resource.mk id_str [] "")) ∧
      ((decode msg).1 = "READ" ∨ (decode msg).1 = "UNLOCK" →
        (step resources id_str msg).1 (decode msg).2.1 = some Resource.fresh) ∧
      ((decode msg).1 = "WRITE" →
        (step resources id_str msg).1 (decode msg).2.1 =
          some (Resource.mk "" [] (if id_str = "" then (decode msg).2.2 else ""))) ∧
      ((decode msg).1 ∉ ["LOCK", "WRITE", "READ", "UNLOCK"] →
        (step resources id_str msg).1 (decode msg).2.1 = none) := by
  have hf := getRes_of_none resources _ hnone
  refine ⟨fun h => ?_, fun h => ?_, fun h => ?_, fun h => ?_⟩
  · rw [step_eq_handle resources id_str msg "LOCK" _ h rfl,
      handle_lock_free _ _ _ _ (by rw [hf]; rfl), hf]
    exact setRes_same _ _ _
  · rcases h with h | h
    · by_cases hid : id_str = ""
      · rw [step_eq_handle resources id_str msg "READ" _ h rfl,
          handle_read_owner _ _ _ _ (by rw [hf, hid]; rfl), hf]
        exact setRes_same _ _ _
      · rw [step_eq_handle resources id_str msg "READ" _ h rfl,
          handle_read_other _ _ _ _ (by rw [hf]; exact fun e => hid e.symm), hf]
        exact setRes_same _ _ _
    · by_cases hid : id_str = ""
      · rw [step_eq_handle resources id_str msg "UNLOCK" _ h rfl,
          handle_unlock_last _ _ _ _ (by rw [hf, hid]; rfl) (by rw [hf]; rfl), hf]
        exact setRes_same _ _ _
      · rw [step_eq_handle resources id_str msg "UNLOCK" _ h rfl,
          handle_unlock_other _ _ _ _ (by rw [hf]; exact fun e => hid e.symm), hf]
        exact setRes_same _ _ _
  · by_cases hid : id_str = ""
    · rw [step_eq_handle resources id_str msg "WRITE" _ h rfl,
        handle_write_owner _ _ _ _ (by rw [hf, hid]; rfl), hf, if_pos hid]
      exact setRes_same _ _ _
    · rw [step_eq_handle resources id_str msg "WRITE" _ h rfl,
        handle_write_other _ _ _ _ (by rw [hf]; exact fun e => hid e.symm), hf, if_neg hid]
      exact setRes_same _ _ _
  · simp only [List.mem_cons, List.mem_singleton, List.not_mem_nil, or_false, not_or] at h
    unfold step
    rw [handle_unknown _ _ _ _ _ h.1 h.2.1 h.2.2.1 h.2.2.2]
    exact hnone

/-- Witness for C14 as amended: a READ of the unreferenced name `r` creates
a fresh entry. -/
theorem lazy_creation_witness :
    (step emptyRegistry "A" "READ r").1 (decode "READ r").2.1 = some Resource.fresh :=
  (lazy_creation emptyRegistry "A" "READ r" (by decide)).2.1 (by decide)

/-- Counterexample to C14 as stated: the request `PING r` has resource field
`r` and an unknown opcode; after it the map still has no entry for `r`. -/
theorem lazy_creation_counterexample :
    emptyRegistry "r" = none ∧ (decode "PING r").2.1 = "r" ∧
      (step emptyRegistry "A" "PING r").1 "r" = none := by
  decide

/-! ## Value writes and reply counts -/

theorem getRes_congr (s t : Registry) (k : String) (h : s k = t k) :
    getRes s k = getRes t k := by
  unfold getRes
  rw [h]

/-- Case principle for the entry of the resource field after one dispatch. -/
theorem handle_entry_cases (resources : Registry) (id_str op resource data : String)
    (P : Resource → Prop)
    (hsame : P (getRes resources resource))
    (hfree : op = "LOCK" → (getRes resources resource).owner = "" →
      P (Resource.mk id_str (getRes resources resource).queue (getRes resources resource).value))
    (hheld : op = "LOCK" → (getRes resources resource).owner ≠ "" →
      P (Resource.mk (getRes resources resource).owner
        ((getRes resources resource).queue ++ [id_str]) (getRes resources resource).value))
    (hwrite : op = "WRITE" → (getRes resources resource).owner = id_str →
      P (Resource.mk (getRes resources resource).owner (getRes resources resource).queue data))
    (hnext : op = "UNLOCK" → (getRes resources resource).owner = id_str →
      ∀ n rest, (getRes resources resource).queue = n :: rest →
        P (Resource.mk n rest (getRes resources resource).value))
    (hlast : op = "UNLOCK" → (getRes resources resource).owner = id_str →
      (getRes resources resource).queue = [] →
        P (Resource.mk "" [] (getRes resources resource).value)) :
    P (getRes (handle resources id_str op resource data).1 resource) := by
  by_cases h1 : op = "LOCK"
  · by_cases ho : (getRes resources resource).owner = ""
    · have := hfree h1 ho
      subst h1
      rw [handle_lock_free _ _ _ _ ho, getRes_setRes_same]
      exact this
    · have := hheld h1 ho
      subst h1
      rw [handle_lock_held _ _ _ _ ho, getRes_setRes_same]
      exact this
  · by_cases h2 : op = "WRITE"
    · by_cases ho : (getRes resources resource).owner = id_str
      · have := hwrite h2 ho
        subst h2
        rw [handle_write_owner _ _ _ _ ho, getRes_setRes_same]
        exact this
      · subst h2
        rw [handle_write_other _ _ _ _ ho, getRes_setRes_same]
        exact hsame
    · by_cases h3 : op = "READ"
      · subst h3
        by_cases ho : (getRes resources resource).owner = id_str
        · rw [handle_read_owner _ _ _ _ ho, getRes_setRes_same]
          exact hsame
        · rw [handle_read_other _ _ _ _ ho, getRes_setRes_same]
          exact hsame
      · by_cases h4 : op = "UNLOCK"
        · by_cases ho : (getRes resources resource).owner = id_str
          · cases hq : (getRes resources resource).queue with
            | nil =>
              have := hlast h4 ho hq
              subst h4
              rw [handle_unlock_last _ _ _ _ ho hq, getRes_setRes_same]
              exact this
            | cons n rest =>
              have := hnext h4 ho n rest hq
              subst h4
              rw [handle_unlock_next _ _ _ _ n rest ho hq, getRes_setRes_same]
              exact this
          · subst h4
            rw [handle_unlock_other _ _ _ _ ho, getRes_setRes_same]
            exact hsame
        · rw [handle_unknown _ _ _ _ _ h1 h2 h3 h4]
          exact hsame

/-- A request from a non-empty identity keeps `NoStranded` on every entry. -/
theorem handle_noStranded (resources : Registry) (id_str op resource data : String)
    (h : ∀ r, NoStranded (getRes resources r)) (hid : id_str ≠ "") :
    ∀ r, NoStranded (getRes (handle resources id_str op resource data).1 r) := by
  intro r
  by_cases hr : r = resource
  · subst hr
    have hr := h r
    apply handle_entry_cases resources id_str op r data NoStranded hr
    · intro _ _
      exact ⟨fun e => absurd e hid, hr.2⟩
    · intro _ ho
      refine ⟨fun e => absurd e ho, fun x hx => ?_⟩
      rcases List.mem_append.1 hx with hx | hx
      · exact hr.2 x hx
      · rw [List.mem_singleton.1 hx]; exact hid
    · intro _ _
      exact hr
    · intro _ _ n rest hq
      have hn : n ≠ "" := hr.2 n (by rw [hq]; simp)
      exact ⟨fun e => absurd e hn, fun x hx => hr.2 x (by rw [hq]; simp [hx])⟩
    · intro _ _ _
      exact ⟨fun _ => rfl, fun x hx => by simp at hx⟩
  · rw [getRes_congr _ _ r (handle_entry_other resources id_str op resource data r hr)]
    exact h r

theorem run_noStranded (reqs : List (String × String)) :
    ∀ (resources : Registry), (∀ r, NoStranded (getRes resources r)) →
      (∀ q ∈ reqs, q.1 ≠ "") → ∀ r, NoStranded (getRes (run resources reqs).1 r) := by
  induction reqs with
  | nil => intro resources h _; exact h
  | cons q rest ih =>
    intro resources h hids
    obtain ⟨id_str, msg⟩ := q
    rw [run_cons]
    exact ih _
      (handle_noStranded resources id_str (decode msg).1 (decode msg).2.1 (decode msg).2.2 h
        (hids (id_str, msg) (by simp)))
      (fun q hq => hids q (List.mem_cons_of_mem _ hq))

/-- C18 (no waiter is stranded on a free resource). Provided every client
identity in the request sequence is a non-empty string, in the state reached
from the empty map every resource stored without owner (empty owner string)
has an empty queue; equivalently a non-empty queue implies an owner. -/
theorem no_waiter_stranded (reqs : List (String × String))
    (hids : ∀ q ∈ reqs, q.1 ≠ "") (r : String) :
    ((getRes (run emptyRegistry reqs).1 r).owner = "" →
        (getRes (run emptyRegistry reqs).1 r).queue = []) ∧
      ((getRes (run emptyRegistry reqs).1 r).queue ≠ [] →
        ownerOf (getRes (run emptyRegistry reqs).1 r) ≠ none) := by
  have h := run_noStranded reqs emptyRegistry
    (fun k => ⟨fun _ => rfl, fun x hx => by simp [getRes_emptyRegistry, Resource.fresh] at hx⟩)
    hids r
  refine ⟨h.1, fun hq => ?_⟩
  unfold ownerOf
  by_cases ho : (getRes (run emptyRegistry reqs).1 r).owner = ""
  · exact absurd (h.1 ho) hq
  · simp [ho]

/-- Witness for C18: after `A` locks, `B` and `C` queue and `A` unlocks, `r`
has owner `B` and the non-empty queue `[C]`. -/
theorem no_waiter_stranded_witness :
    (getRes (run emptyRegistry
        [("A", "LOCK r"), ("B", "LOCK r"), ("C", "LOCK r"), ("A", "UNLOCK r")]).1 "r").queue =
        ["C"] ∧
      ownerOf (getRes (run emptyRegistry
        [("A", "LOCK r"), ("B", "LOCK r"), ("C", "LOCK r"), ("A", "UNLOCK r")]).1 "r") ≠ none :=
  ⟨by decide,
   (no_waiter_stranded
      [("A", "LOCK r"), ("B", "LOCK r"), ("C", "LOCK r"), ("A", "UNLOCK r")]
      (by decide) "r").2 (by decide)⟩

/-- A request that respects the re-queue rule keeps every queue well formed. -/
theorem step_queueWF (resources : Registry) (id_str msg : String)
    (h : ∀ r, QueueWF (getRes resources r)) (hreq : noRequeue resources id_str msg) :
    ∀ r, QueueWF (getRes (step resources id_str msg).1 r) := by
  intro r
  unfold step
  by_cases hr : r = (decode msg).2.1
  · subst hr
    have hr := h (decode msg).2.1
    apply handle_entry_cases resources id_str (decode msg).1 (decode msg).2.1 (decode msg).2.2
      QueueWF hr
    · intro hop _
      exact ⟨(hreq hop).2, hr.2⟩
    · intro hop ho
      have hne : (getRes resources (decode msg).2.1).owner ≠ id_str := by
        intro e
        apply (hreq hop).1
        unfold ownerOf
        rw [if_neg ho, e]
      refine ⟨fun hx => ?_, ?_⟩
      · rcases List.mem_append.1 hx with hx | hx
        · exact hr.1 hx
        · exact hne (List.mem_singleton.1 hx)
      · refine List.Nodup.append hr.2 (List.nodup_singleton _) ?_
        intro x hx1 hx2
        rw [List.mem_singleton.1 hx2] at hx1
        exact (hreq hop).2 hx1
    · intro _ _
      exact hr
    · intro _ _ n rest hq
      have hnd : (n :: rest).Nodup := by rw [← hq]; exact hr.2
      exact ⟨(List.nodup_cons.1 hnd).1, (List.nodup_cons.1 hnd).2⟩
    · intro _ _ _
      exact ⟨by simp, List.nodup_nil⟩
  · rw [getRes_congr _ _ r (handle_entry_other resources id_str _ _ _ r hr)]
    exact h r

theorem run_queueWF (reqs : List (String × String)) :
    ∀ (resources : Registry), (∀ r, QueueWF (getRes resources r)) →
      noRequeueRun resources reqs → ∀ r, QueueWF (getRes (run resources reqs).1 r) := by
  induction reqs with
  | nil => intro resources h _; exact h
  | cons q rest ih =>
    intro resources h hreq
    obtain ⟨id_str, msg⟩ := q
    rw [run_cons]
    exact ih _ (step_queueWF resources id_str msg h hreq.1) hreq.2

/-- C11, as amended (waitQueue well-formedness). In every state reached from
the empty map by a finite sequence of requests in which no client sends
LOCK for a resource while it is the owner of that resource or already waits
in its queue, for every resource the queue does not contain the stored
owner and contains no client identity twice. -/
theorem queue_well_formed (reqs : List (String × String))
    (hreq : noRequeueRun emptyRegistry reqs) (r : String) :
    (getRes (run emptyRegistry reqs).1 r).owner ∉ (getRes (run emptyRegistry reqs).1 r).queue ∧
      (getRes (run emptyRegistry reqs).1 r).queue.Nodup :=
  run_queueWF reqs emptyRegistry
    (fun k => ⟨by simp [getRes_emptyRegistry, Resource.fresh],
      by simp [getRes_emptyRegistry, Resource.fresh]⟩) hreq r

/-- Witness for C11 as amended: `A` locks `r`, `B` and `C` queue once each. -/
theorem queue_well_formed_witness :
    (getRes (run emptyRegistry [("A", "LOCK r"), ("B", "LOCK r"), ("C", "LOCK r")]).1 "r").owner ∉
        (getRes (run emptyRegistry
          [("A", "LOCK r"), ("B", "LOCK r"), ("C", "LOCK r")]).1 "r").queue ∧
      (getRes (run emptyRegistry
        [("A", "LOCK r"), ("B", "LOCK r"), ("C", "LOCK r")]).1 "r").queue.Nodup :=
  queue_well_formed [("A", "LOCK r"), ("B", "LOCK r"), ("C", "LOCK r")]
    ⟨fun _ => by decide, fun _ => by decide, fun _ => by decide, trivial⟩ "r"

/-- Counterexample to C11 as stated: a second LOCK by the owner `A` puts `A`
into the queue of the resource it owns, and a repeated LOCK by the waiting
`B` puts `B` into the queue twice. -/
theorem queue_well_formed_counterexample :
    getRes (run emptyRegistry [("A", "LOCK r"), ("A", "LOCK r")]).1 "r" =
        Resource.mk "A" ["A"] "" ∧
      getRes (run emptyRegistry [("A", "LOCK r"), ("B", "LOCK r"), ("B", "LOCK r")]).1 "r" =
        Resource.mk "A" ["B", "B"] "" := by
  decide

/-! ## Accounting of LOCK requests -/

theorem grantsSent_other (replies : List Reply) (resource r : String) (h : r ≠ resource) :
    grantsSent (replies.map (Event.mk resource)) r = 0 := by
  unfold grantsSent
  rw [List.countP_eq_zero]
  intro e he
  obtain ⟨rep, _, hrep⟩ := List.mem_map.1 he
  subst hrep
  have hne : ¬ resource = r := fun e => h e.symm
  simp [hne]

/-- One dispatch keeps the balance "LOCKs = grants + queue length" of every
resource name. -/
theorem handle_balance (resources : Registry) (id_str op resource data r : String) :
    (if op = "LOCK" ∧ resource = r then 1 else 0) + (getRes resources r).queue.length =
      grantsSent ((handle resources id_str op resource data).2.map (Event.mk resource)) r +
        (getRes (handle resources id_str op resource data).1 r).queue.length := by
  by_cases hr : r = resource
  · subst hr
    by_cases h1 : op = "LOCK"
    · subst h1
      by_cases ho : (getRes resources r).owner = ""
      · rw [handle_lock_free _ _ _ _ ho, getRes_setRes_same]
        simp [grantsSent]
      · rw [handle_lock_held _ _ _ _ ho, getRes_setRes_same]
        simp [grantsSent]
        omega
    · by_cases h2 : op = "WRITE"
      · subst h2
        by_cases ho : (getRes resources r).owner = id_str
        · rw [handle_write_owner _ _ _ _ ho, getRes_setRes_same]
          simp [grantsSent]
        · rw [handle_write_other _ _ _ _ ho, getRes_setRes_same]
          simp [grantsSent]
      · by_cases h3 : op = "READ"
        · subst h3
          by_cases ho : (getRes resources r).owner = id_str
          · rw [handle_read_owner _ _ _ _ ho, getRes_setRes_same]
            simp [grantsSent, read_ok_ne_granted]
          · rw [handle_read_other _ _ _ _ ho, getRes_setRes_same]
            simp [grantsSent]
        · by_cases h4 : op = "UNLOCK"
          · subst h4
            by_cases ho : (getRes resources r).owner = id_str
            · cases hq : (getRes resources r).queue with
              | nil =>
                rw [handle_unlock_last _ _ _ _ ho hq, getRes_setRes_same]
                simp [grantsSent]
              | cons n rest =>
                rw [handle_unlock_next _ _ _ _ n rest ho hq, getRes_setRes_same]
                simp [grantsSent]
                omega
            · rw [handle_unlock_other _ _ _ _ ho, getRes_setRes_same]
              simp [grantsSent]
          · rw [handle_unknown _ _ _ _ _ h1 h2 h3 h4]
            simp [grantsSent, h1]
  · have hr2 : ¬ resource = r := fun e => hr e.symm
    rw [grantsSent_other _ _ _ hr,
      getRes_congr _ _ r (handle_entry_other resources id_str op resource data r hr)]
    simp [hr2]

theorem trace_cons (resources : Registry) (id_str msg : String)
    (rest : List (String × String)) :
    trace resources ((id_str, msg) :: rest) =
      (step resources id_str msg).2.map (Event.mk (decode msg).2.1) ++
        trace (step resources id_str msg).1 rest := rfl

/-- The balance along a run from any state. -/
theorem run_balance (reqs : List (String × String)) (r : String) :
    ∀ (resources : Registry),
      lockRequests reqs r + (getRes resources r).queue.length =
        grantsSent (trace resources reqs) r + (getRes (run resources reqs).1 r).queue.length := by
  induction reqs with
  | nil => intro resources; simp [lockRequests, grantsSent, trace, run]
  | cons q rest ih =>
    intro resources
    obtain ⟨id_str, msg⟩ := q
    have h1 := handle_balance resources id_str (decode msg).1 (decode msg).2.1
      (decode msg).2.2 r
    have h2 := ih (step resources id_str msg).1
    have hl : lockRequests ((id_str, msg) :: rest) r =
        (if (decode msg).1 = "LOCK" ∧ (decode msg).2.1 = r then 1 else 0) +
          lockRequests rest r := by
      unfold lockRequests
      rw [List.countP_cons]
      simp only [decide_eq_true_eq]
      omega
    have hg : grantsSent (trace resources ((id_str, msg) :: rest)) r =
        grantsSent ((step resources id_str msg).2.map (Event.mk (decode msg).2.1)) r +
          grantsSent (trace (step resources id_str msg).1 rest) r := by
      rw [trace_cons]
      unfold grantsSent
      rw [List.countP_append]
    rw [hl, hg, run_cons]
    have h1b : (if (decode msg).1 = "LOCK" ∧ (decode msg).2.1 = r then 1 else 0) +
        (getRes resources r).queue.length =
        grantsSent ((step resources id_str msg).2.map (Event.mk (decode msg).2.1)) r +
          (getRes (step resources id_str msg).1 r).queue.length := h1
    show _ = _ + (getRes (run (step resources id_str msg).1 rest).1 r).queue.length
    omega

/-- C17 (every LOCK is answered at most once; pending LOCKs are exactly the
queue). For every finite sequence of requests processed from the empty map
and every resource `r`: the number of LOCK requests naming `r` equals the
number of `LOCK_GRANTED` replies sent while processing requests naming `r`
plus the current length of the queue of `r`. -/
theorem lock_accounting (reqs : List (String × String)) (r : String) :
    lockRequests reqs r =
      grantsSent (trace emptyRegistry reqs) r +
        (getRes (run emptyRegistry reqs).1 r).queue.length := by
  have h := run_balance reqs r emptyRegistry
  simpa [getRes_emptyRegistry, Resource.fresh] using h

/-- Example for C17: three LOCKs of `r`, two granted (one at once, one on the
UNLOCK) and one still queued. -/
theorem lock_accounting_witness :
    lockRequests [("A", "LOCK r"), ("B", "LOCK r"), ("C", "LOCK r"), ("A", "UNLOCK r")] "r" = 3 ∧
      grantsSent (trace emptyRegistry
        [("A", "LOCK r"), ("B", "LOCK r"), ("C", "LOCK r"), ("A", "UNLOCK r")]) "r" = 2 ∧
      (getRes (run emptyRegistry
        [("A", "LOCK r"), ("B", "LOCK r"), ("C", "LOCK r"), ("A", "UNLOCK r")]).1 "r").queue.length
        = 1 := by
  have h := lock_accounting
    [("A", "LOCK r"), ("B", "LOCK r"), ("C", "LOCK r"), ("A", "UNLOCK r")] "r"
  have hg : grantsSent (trace emptyRegistry
      [("A", "LOCK r"), ("B", "LOCK r"), ("C", "LOCK r"), ("A", "UNLOCK r")]) "r" = 2 := by
    decide
  have hq : (getRes (run emptyRegistry
      [("A", "LOCK r"), ("B", "LOCK r"), ("C", "LOCK r"), ("A", "UNLOCK r")]).1
      "r").queue.length = 1 := by
    decide
  rw [hg, hq] at h
  exact ⟨h, hg, hq⟩

/-! ## `split_n` is lossless and bounded -/

theorem intercalate_go_snoc (sep : String) (xs : List String) :
    ∀ (acc b : String),
      String.intercalate.go acc sep (xs ++ [b]) = String.intercalate.go acc sep xs ++ sep ++ b := by
  induction xs with
  | nil => intro acc b; simp [String.intercalate.go]
  | cons x rest ih => intro acc b; simp [String.intercalate.go, ih]

theorem intercalate_snoc (sep : String) (xs : List String) (b : String) (h : xs ≠ []) :
    String.intercalate sep (xs ++ [b]) = String.intercalate sep xs ++ sep ++ b := by
  cases xs with
  | nil => exact absurd rfl h
  | cons x rest => simp [String.intercalate, intercalate_go_snoc]

theorem intercalate_single (sep a : String) : String.intercalate sep [a] = a := by
  simp [String.intercalate, String.intercalate.go]

/-- Appending one character to the last part appends it to the joined text. -/
theorem intercalate_push (sep : String) (out : List String) (cur : String) (c : Char) :
    String.intercalate sep (out ++ [cur.push c]) =
      String.intercalate sep (out ++ [cur]) ++ String.mk [c] := by
  by_cases h : out = []
  · subst h
    simp only [List.nil_append, intercalate_single]
    apply String.ext
    simp [String.data_append]
  · rw [intercalate_snoc _ _ _ h, intercalate_snoc _ _ _ h]
    apply String.ext
    simp [String.data_append]

/-- Joining the parts built by the loop gives back what was consumed. -/
theorem split_n_loop_join (delim : Char) (max_parts : Int) (l : List Char) :
    ∀ (out : List String) (cur : String) (parts : Int),
      String.intercalate (String.singleton delim) (split_n_loop delim max_parts l out cur parts) =
        String.intercalate (String.singleton delim) (out ++ [cur]) ++ String.mk l := by
  induction l with
  | nil => intro out cur parts; simp [split_n_loop, append_mk_nil]
  | cons c cs ih =>
    intro out cur parts
    by_cases hc : c = delim ∧ parts < max_parts
    · simp only [split_n_loop, hc, and_self, if_true]
      rw [ih, intercalate_snoc _ _ _ (by simp)]
      apply String.ext
      simp [String.data_append, hc.1]
    · simp only [split_n_loop, hc, if_false]
      rw [ih, intercalate_push]
      apply String.ext
      simp [String.data_append]

/-- Number of parts built by the loop. -/
theorem split_n_loop_length (delim : Char) (max_parts : Int) (l : List Char) :
    ∀ (out : List String) (cur : String) (parts : Int), parts ≤ max_parts →
      (split_n_loop delim max_parts l out cur parts).length =
        out.length + 1 + min (max_parts - parts).toNat (l.count delim) := by
  induction l with
  | nil => intro out cur parts _; simp [split_n_loop]
  | cons c cs ih =>
    intro out cur parts hp
    by_cases hc : c = delim
    · subst hc
      by_cases hlt : parts < max_parts
      · simp only [split_n_loop, hlt, and_self, if_true]
        rw [ih _ _ _ (by omega)]
        simp only [List.length_append, List.length_singleton, List.count_cons_self]
        omega
      · simp only [split_n_loop, hlt, and_false, if_false]
        rw [ih _ _ _ hp]
        simp only [List.count_cons_self]
        omega
    · simp only [split_n_loop, hc, false_and, if_false]
      rw [ih _ _ _ hp, List.count_cons_of_ne (fun e => hc e.symm)]

/-- C20 (`split_n` is lossless and bounded). For every string `s`, delimiter
`delim` and `max_parts ≥ 1`, `split_n s delim max_parts` has exactly
`min(max_parts, 1 + number of occurrences of delim in s)` parts, so at least
one and at most `max_parts`, and joining the parts with `delim` between
consecutive parts gives back `s`. -/
theorem split_n_lossless (s : String) (delim : Char) (max_parts : Int) (h : 1 ≤ max_parts) :
    (split_n s delim max_parts).length = min max_parts.toNat (1 + s.data.count delim) ∧
      1 ≤ (split_n s delim max_parts).length ∧
      ((split_n s delim max_parts).length : Int) ≤ max_parts ∧
      String.intercalate (String.singleton delim) (split_n s delim max_parts) = s := by
  have hl := split_n_loop_length delim max_parts s.data [] "" 1 h
  have hj := split_n_loop_join delim max_parts s.data [] "" 1
  unfold split_n
  refine ⟨?_, ?_, ?_, ?_⟩
  · rw [hl]; simp only [List.length_nil]; omega
  · rw [hl]; omega
  · rw [hl]; simp only [List.length_nil]; omega
  · rw [hj]
    apply String.ext
    simp [String.data_append, String.intercalate, String.intercalate.go]

/-- Witness for C20: `a,b,,c` split at `,` into at most 3 parts. -/
theorem split_n_lossless_witness :
    (split_n "a,b,,c" ',' 3).length = min (3 : Int).toNat (1 + "a,b,,c".data.count ',') ∧
      split_n "a,b,,c" ',' 3 = ["a", "b", ",c"] ∧
      String.intercalate (String.singleton ',') (split_n "a,b,,c" ',' 3) = "a,b,,c" :=
  ⟨(split_n_lossless "a,b,,c" ',' 3 (by decide)).1, by decide,
   (split_n_lossless "a,b,,c" ',' 3 (by decide)).2.2.2⟩

/-! ## Client driver -/

/-- After an accepted argument list the result depends on the replies only. -/
theorem client_main_usage_ok (stoi : String → Option Int) (argv : List String)
    (lock_reply op_reply unlock_reply : Option String) (hu : usage_ok stoi argv) :
    client_main stoi argv lock_reply op_reply unlock_reply =
      match lock_reply with
      | none => Outcome.returned 1
      | some reply =>
        if reply = "LOCK_GRANTED" then
          if (argv.getD 2 "" = "WRITE" ∨ argv.getD 2 "" = "READ") ∧ op_reply.isNone then
            Outcome.uncaught
          else
            match unlock_reply with
            | none => Outcome.uncaught
            | some _ => Outcome.returned 0
        else Outcome.returned 1 := by
  obtain ⟨h3, hw⟩ := hu
  have h3n : ¬ argv.length < 3 := by omega
  have hA : ¬ (argv.getD 2 "" = "WRITE" ∧ argv.length < 4) := by
    intro h
    have := (hw h.1).1
    omega
  have hB : ¬ (argv.getD 2 "" = "WRITE" ∧ argv.length ≥ 5 ∧
      (stoi (argv.getD 4 "")).isNone = true) := by
    intro h
    have h1 := (hw h.1).2 h.2.1
    have h2 := h.2.2
    rw [Option.isNone_iff_eq_none] at h2
    rw [h2] at h1
    exact absurd h1 (by decide)
  unfold client_main
  rw [if_neg h3n]
  simp only []
  rw [if_neg hA, if_neg hB]

/-- C16, as amended (driver exit code). The driver returns exit code 1 when
fewer than two arguments follow the program name, when the operation is
WRITE and the data argument is missing, and, for an accepted argument list,
when the LOCK call fails in transport or its reply is not `LOCK_GRANTED`.
When the LOCK reply is `LOCK_GRANTED`, the operation is READ or WRITE and
the WRITE or READ call and the UNLOCK call each return a reply, it returns
0 whatever those two replies are. -/
theorem client_exit_code (stoi : String → Option Int) (argv : List String)
    (lock_reply op_reply unlock_reply : Option String) :
    (argv.length < 3 →
        client_main stoi argv lock_reply op_reply unlock_reply = Outcome.returned 1) ∧
      (argv.getD 2 "" = "WRITE" → argv.length < 4 →
        client_main stoi argv lock_reply op_reply unlock_reply = Outcome.returned 1) ∧
      (usage_ok stoi argv → lock_reply = none →
        client_main stoi argv lock_reply op_reply unlock_reply = Outcome.returned 1) ∧
      (usage_ok stoi argv → ∀ reply, lock_reply = some reply → reply ≠ "LOCK_GRANTED" →
        client_main stoi argv lock_reply op_reply unlock_reply = Outcome.returned 1) ∧
      (usage_ok stoi argv → lock_reply = some "LOCK_GRANTED" →
        argv.getD 2 "" = "WRITE" ∨ argv.getD 2 "" = "READ" →
        ∀ x y, op_reply = some x → unlock_reply = some y →
          client_main stoi argv lock_reply op_reply unlock_reply = Outcome.returned 0) := by
  refine ⟨?_, ?_, ?_, ?_, ?_⟩
  · intro h
    unfold client_main
    rw [if_pos h]
  · intro hop h
    unfold client_main
    by_cases h3 : argv.length < 3
    · rw [if_pos h3]
    · rw [if_neg h3]
      simp only []
      rw [if_pos ⟨hop, h⟩]
  · intro hu hl
    rw [client_main_usage_ok stoi argv _ _ _ hu, hl]
  · intro hu reply hl hne
    rw [client_main_usage_ok stoi argv _ _ _ hu, hl]
    simp only []
    rw [if_neg hne]
  · intro hu hl _ x y hx hy
    rw [client_main_usage_ok stoi argv _ _ _ hu, hl, hx, hy]
    simp

/-- Witness for C16 as amended: `client r WRITE hello 2` with all three
calls answered returns 0; `client r READ` with a failed LOCK call returns 1. -/
theorem client_exit_code_witness :
    client_main (fun _ => some 2) ["client", "r", "WRITE", "hello", "2"]
        (some "LOCK_GRANTED") (some "WRITE_OK") (some "UNLOCKED") = Outcome.returned 0 ∧
      client_main (fun _ => some 2) ["client", "r", "READ"] none none none =
        Outcome.returned 1 :=
  ⟨(client_exit_code (fun _ => some 2) ["client", "r", "WRITE", "hello", "2"]
      (some "LOCK_GRANTED") (some "WRITE_OK") (some "UNLOCKED")).2.2.2.2
      ⟨by decide, fun _ => ⟨by decide, fun _ => rfl⟩⟩ rfl (Or.inl (by decide))
      "WRITE_OK" "UNLOCKED" rfl rfl,
   (client_exit_code (fun _ => some 2) ["client", "r", "READ"] none none none).2.2.1
      ⟨by decide, fun h => absurd h (by decide)⟩ rfl⟩

/-- Counterexample to C16 as stated: the driver returns 0 after the
unexpected replies `WRITE_DENIED`, `READ_DENIED` and `UNLOCK_DENIED` and for
the operation `DELETE`, and a transport failure of the WRITE call does not
make it return 1 (the exception is not caught). -/
theorem client_exit_code_counterexample :
    client_main (fun _ => some 0) ["client", "r", "WRITE", "x"]
        (some "LOCK_GRANTED") (some "WRITE_DENIED") (some "UNLOCKED") = Outcome.returned 0 ∧
      client_main (fun _ => some 0) ["client", "r", "READ"]
        (some "LOCK_GRANTED") (some "READ_DENIED") (some "UNLOCKED") = Outcome.returned 0 ∧
      client_main (fun _ => some 0) ["client", "r", "READ"]
        (some "LOCK_GRANTED") (some "READ_OK v") (some "UNLOCK_DENIED") = Outcome.returned 0 ∧
      client_main (fun _ => some 0) ["client", "r", "DELETE"]
        (some "LOCK_GRANTED") none (some "UNLOCKED") = Outcome.returned 0 ∧
      client_main (fun _ => some 0) ["client", "r", "WRITE", "x"]
        (some "LOCK_GRANTED") none (some "UNLOCKED") = Outcome.uncaught := by
  decide

end LockServer
